import Mathlib

/-!
Verification development for the vector/matrix/quaternion core in
`Inc/VecMat.h` (vec2/vec3/vec4, int2/int3/int4, mat3, mat4, Quaternion).

The C++ code computes with IEEE floats.  The shallow embedding below uses
exact rationals for the algebraic/branching code (all component formulas,
comparisons, adjugates, cofactor inverses, bounds folds) and real numbers
for the transcendental quaternion code (`sqrt`, `sin`, `cos`, `acos`).
Each definition mirrors one source function; field/array accesses such as
`m[i][j]` become named-field accesses in declaration order, and the flat
`float*` view of a `mat4` becomes an index function with the same
row-major layout.
-/

namespace VecMat

/-- FLT_EPSILON, the float machine epsilon 2^-23, as an exact rational. -/
def fltEpsilon : ℚ := 1 / 2 ^ 23

/-- FLT_MAX, the largest finite float (2 - 2^-23)·2^127, as an exact rational. -/
def fltMax : ℚ := 2 ^ 128 - 2 ^ 104

/-- Source `class vec2` (VecMat.h line 31): two floats x, y. -/
structure vec2 where
  x : ℚ
  y : ℚ
  deriving DecidableEq, Repr

/-- Source `vec2::operator-()` (unary negation). -/
def vec2.neg (v : vec2) : vec2 := ⟨-v.x, -v.y⟩

/-- Source `vec2::operator-(const vec2&)` (componentwise subtraction). -/
def vec2.sub (a v : vec2) : vec2 := ⟨a.x - v.x, a.y - v.y⟩

/-- Source `class vec3` over an arbitrary scalar type (used at ℚ for the
Bounds/adjoint code and at ℝ for the quaternion code). -/
structure vec3 (α : Type) where
  x : α
  y : α
  z : α

deriving instance DecidableEq for vec3
deriving instance Repr for vec3

/-- Source `class vec4` (VecMat.h line 130): four floats x, y, z, w. -/
structure vec4 where
  x : ℚ
  y : ℚ
  z : ℚ
  w : ℚ
  deriving DecidableEq, Repr

/-- Source `vec4::operator*(const vec4 &v)` (VecMat.h line 150), transcribed
verbatim: `vec4(x*v.x, y*v.y, z*v.z, w*v.z)`.  Note the last factor reads
`v.z`, exactly as in the source. -/
def vec4.mul (a v : vec4) : vec4 := ⟨a.x * v.x, a.y * v.y, a.z * v.z, a.w * v.z⟩

/-- Source `vec4::operator*=(const vec4 &v)` (VecMat.h line 157):
`x *= v.x, y *= v.y, z *= v.z, w *= v.w`. -/
def vec4.mulAssign (a v : vec4) : vec4 := ⟨a.x * v.x, a.y * v.y, a.z * v.z, a.w * v.w⟩

/-- Source `dot(const vec4&, const vec4&)` (VecMat.h line 161). -/
def dot4 (a b : vec4) : ℚ := a.x * b.x + a.y * b.y + a.z * b.z + a.w * b.w

/-- Source `Flint(float x) { return (int) floor(x); }` (VecMat.h line 170).
For every in-range value the outer int cast is the identity on the already
integral `floor(x)`, so the embedding is the mathematical floor. -/
def Flint (x : ℚ) : ℤ := ⌊x⌋

/-- Source `struct int2` (VecMat.h line 172). -/
structure int2 where
  i1 : ℤ
  i2 : ℤ
  deriving DecidableEq, Repr

/-- Source constructor `int2(vec2 v) : i1(Flint(v.x)), i2(Flint(v.y))`. -/
def int2.ofVec (v : vec2) : int2 := ⟨Flint v.x, Flint v.y⟩

/-- Source `struct int3` (VecMat.h line 184). -/
structure int3 where
  i1 : ℤ
  i2 : ℤ
  i3 : ℤ
  deriving DecidableEq, Repr

/-- Source constructor `int3(vec3 v)` (VecMat.h line 189). -/
def int3.ofVec (v : vec3 ℚ) : int3 := ⟨Flint v.x, Flint v.y, Flint v.z⟩

/-- Source `struct int4` (VecMat.h line 197). -/
structure int4 where
  i1 : ℤ
  i2 : ℤ
  i3 : ℤ
  i4 : ℤ
  deriving DecidableEq, Repr

/-- Source constructor `int4(vec4 v)` (VecMat.h line 202). -/
def int4.ofVec (v : vec4) : int4 := ⟨Flint v.x, Flint v.y, Flint v.z, Flint v.w⟩

/-- Source `class mat4` (VecMat.h line 324): four vec4 rows. -/
structure mat4 where
  r0 : vec4
  r1 : vec4
  r2 : vec4
  r3 : vec4
  deriving DecidableEq, Repr

/-- Source constructor `mat4(float diag = 1)` (VecMat.h line 328): rows start
as zero vectors and `row[0].x = row[1].y = row[2].z = row[3].w = diag`. -/
def mat4.diagonal (d : ℚ) : mat4 :=
  ⟨⟨d, 0, 0, 0⟩, ⟨0, d, 0, 0⟩, ⟨0, 0, d, 0⟩, ⟨0, 0, 0, d⟩⟩

/-- The default-constructed `mat4`, i.e. `mat4.diagonal 1` (the identity). -/
def mat4.identity : mat4 := mat4.diagonal 1

/-- Source `mat4::operator*(const vec4 &v)` (VecMat.h line 366):
`vec4(dot(row[0], v), dot(row[1], v), dot(row[2], v), dot(row[3], v))`. -/
def mat4.mulVec (m : mat4) (v : vec4) : vec4 :=
  ⟨dot4 m.r0 v, dot4 m.r1 v, dot4 m.r2 v, dot4 m.r3 v⟩

/-- Source `Orthographic(left, right, bottom, top, zNear, zFar)` (VecMat.h
line 416): starts from the default (identity) matrix `c` and assigns
`c[0][0] = 2/(right-left)`, `c[1][1] = 2/(top-bottom)`,
`c[2][2] = 2/(zNear-zFar)`, `c[3][3] = 1`, `c[0][3] = -(right+left)/(right-left)`,
`c[1][3] = -(top+bottom)/(top-bottom)`, `c[2][3] = -(zFar+zNear)/(zFar-zNear)`;
every entry not assigned keeps its identity-matrix value (zero off the
diagonal). -/
def Orthographic (left right bottom top zNear zFar : ℚ) : mat4 :=
  ⟨⟨2 / (right - left), 0, 0, -(right + left) / (right - left)⟩,
   ⟨0, 2 / (top - bottom), 0, -(top + bottom) / (top - bottom)⟩,
   ⟨0, 0, 2 / (zNear - zFar), -(zFar + zNear) / (zFar - zNear)⟩,
   ⟨0, 0, 0, 1⟩⟩

end VecMat

namespace VecMat

/-- C1: the claim states the vec4 vector-times-vector product is the
componentwise (Hadamard) product including the w component.  The code
(VecMat.h line 150) computes the w component as `w*v.z`: at
a = (1,2,3,4), b = (5,6,7,8) the product is (5,12,21,28), whose w
component 28 = 4·7 differs from the Hadamard value 4·8 = 32 (which the
reflexive `operator*=` on line 157 does compute). -/
theorem c1_vec4_mul_w_uses_z :
    vec4.mul ⟨1, 2, 3, 4⟩ ⟨5, 6, 7, 8⟩ = ⟨5, 12, 21, 28⟩ ∧
    (vec4.mul ⟨1, 2, 3, 4⟩ ⟨5, 6, 7, 8⟩).w ≠ (4 : ℚ) * 8 ∧
    vec4.mulAssign ⟨1, 2, 3, 4⟩ ⟨5, 6, 7, 8⟩ = ⟨5, 12, 21, 32⟩ := by
  refine ⟨?_, ?_, ?_⟩ <;> simp only [vec4.mul, vec4.mulAssign, vec4.mk.injEq] <;> norm_num

/-- C9: conversion from float vectors to integer vectors floors every
component (truncation toward negative infinity): int2/int3/int4 built from
vec2/vec3/vec4 take the floor of each component, and a component of -3/2
converts to -2, not -1. -/
theorem c9_int_conversion_floors :
    (∀ v : vec2, int2.ofVec v = ⟨⌊v.x⌋, ⌊v.y⌋⟩) ∧
    (∀ v : vec3 ℚ, int3.ofVec v = ⟨⌊v.x⌋, ⌊v.y⌋, ⌊v.z⌋⟩) ∧
    (∀ v : vec4, int4.ofVec v = ⟨⌊v.x⌋, ⌊v.y⌋, ⌊v.z⌋, ⌊v.w⌋⟩) ∧
    Flint (-3 / 2) = -2 ∧ Flint (-3 / 2) ≠ -1 := by
  have hfl : Flint (-3 / 2) = -2 := by
    rw [Flint, Int.floor_eq_iff]
    all_goals norm_num
  exact ⟨fun v => rfl, fun v => rfl, fun v => rfl, hfl, by rw [hfl]; norm_num⟩

end VecMat

namespace VecMat

/-- C5 counterexample: `Orthographic(-1,1,-1,1,-1,1)` applied to
`vec4(1,1,1,1)` does NOT yield `(1,1,1,1)`: the z component of the product
is `-1`, because `c[2][2] = 2/(zNear-zFar) = -1` (the canonical clip cube
flips z).  All arithmetic here is exact in floats as well. -/
theorem c5_orthographic_identity_box_fails :
    (mat4.mulVec (Orthographic (-1) 1 (-1) 1 (-1) 1) ⟨1, 1, 1, 1⟩).z = -1 ∧
    ((-1 : ℚ) ≠ 1) := by
  constructor
  · simp only [Orthographic, mat4.mulVec, dot4]
    norm_num
  · norm_num

/-- C5 amended: `Orthographic(-1,1,-1,1,-1,1)` applied to `vec4(1,1,1,1)`
yields exactly `(1,1,-1,1)`: x, y and w are preserved and z is negated
(the orthographic matrix for the identity box is `diag(1,1,-1,1)`). -/
theorem c5_orthographic_identity_box :
    mat4.mulVec (Orthographic (-1) 1 (-1) 1 (-1) 1) ⟨1, 1, 1, 1⟩ = ⟨1, 1, -1, 1⟩ ∧
    Orthographic (-1) 1 (-1) 1 (-1) 1 =
      ⟨⟨1, 0, 0, 0⟩, ⟨0, 1, 0, 0⟩, ⟨0, 0, -1, 0⟩, ⟨0, 0, 0, 1⟩⟩ := by
  constructor <;>
    · simp only [Orthographic, mat4.mulVec, dot4, mat4.mk.injEq, vec4.mk.injEq]
      norm_num

end VecMat

namespace VecMat

/-- Source `class mat3` (VecMat.h line 210): three vec3 rows, over an
arbitrary scalar type (ℚ for the inversion code, ℝ for the quaternion
code). -/
structure mat3 (alpha : Type) where
  r0 : vec3 alpha
  r1 : vec3 alpha
  r2 : vec3 alpha

deriving instance DecidableEq for mat3
deriving instance Repr for mat3

/-- Source `Transpose(mat3 m)` (VecMat.h line 240). -/
def Transpose {alpha : Type} (m : mat3 alpha) : mat3 alpha :=
  ⟨⟨m.r0.x, m.r1.x, m.r2.x⟩,
   ⟨m.r0.y, m.r1.y, m.r2.y⟩,
   ⟨m.r0.z, m.r1.z, m.r2.z⟩⟩

/-- Source `mat3::operator*(float s)` (VecMat.h line 227):
`mat3(s*row[0], s*row[1], s*row[2])`. -/
def mat3.scale {alpha : Type} [Mul alpha] (s : alpha) (m : mat3 alpha) : mat3 alpha :=
  ⟨⟨s * m.r0.x, s * m.r0.y, s * m.r0.z⟩,
   ⟨s * m.r1.x, s * m.r1.y, s * m.r1.z⟩,
   ⟨s * m.r2.x, s * m.r2.y, s * m.r2.z⟩⟩

/-- Source `Adjoint3x3(mat3 in)` (VecMat.h line 267), entry for entry;
`out[r][c]` is row r, column c of the result. -/
def Adjoint3x3 {alpha : Type} [Ring alpha] (inp : mat3 alpha) : mat3 alpha :=
  ⟨⟨inp.r1.y * inp.r2.z - inp.r1.z * inp.r2.y,
    -(inp.r0.y * inp.r2.z - inp.r0.z * inp.r2.y),
    inp.r0.y * inp.r1.z - inp.r0.z * inp.r1.y⟩,
   ⟨-(inp.r1.x * inp.r2.z - inp.r1.z * inp.r2.x),
    inp.r0.x * inp.r2.z - inp.r0.z * inp.r2.x,
    -(inp.r0.x * inp.r1.z - inp.r0.z * inp.r1.x)⟩,
   ⟨inp.r1.x * inp.r2.y - inp.r1.y * inp.r2.x,
    -(inp.r0.x * inp.r2.y - inp.r0.y * inp.r2.x),
    inp.r0.x * inp.r1.y - inp.r0.y * inp.r1.x⟩⟩

/-- The determinant exactly as computed inside `InvertMatrix3x3` (VecMat.h
line 283): `out[0][0]*in[0][0] + out[0][1]*in[1][0] + out[0][2]*in[2][0]`
with `out = Adjoint3x3(in)` (cofactor expansion along the first column). -/
def det3Computed (inp : mat3 ℚ) : ℚ :=
  (Adjoint3x3 inp).r0.x * inp.r0.x + (Adjoint3x3 inp).r0.y * inp.r1.x +
    (Adjoint3x3 inp).r0.z * inp.r2.x

/-- The textbook 3x3 determinant (first-row cofactor expansion), used to
relate the computed determinant to the determinant of the input. -/
def det3Spec (m : mat3 ℚ) : ℚ :=
  m.r0.x * (m.r1.y * m.r2.z - m.r1.z * m.r2.y) -
    m.r0.y * (m.r1.x * m.r2.z - m.r1.z * m.r2.x) +
    m.r0.z * (m.r1.x * m.r2.y - m.r1.y * m.r2.x)

/-- Source `InvertMatrix3x3(mat3 in, mat3 &out)` (VecMat.h line 281).  The
output parameter is modelled as the second component of the returned pair.
The local `out` is first set to `Adjoint3x3(in)` and the local `det` is the
expression captured by `det3Computed`; if `det < FLT_EPSILON && det >
-FLT_EPSILON` the function returns false with `out` still holding the
adjugate; otherwise every entry of `out` is multiplied by `di = 1/det`
(exactly `mat3.scale`, entry for entry) and it returns true. -/
def InvertMatrix3x3 (inp : mat3 ℚ) : Bool × mat3 ℚ :=
  if det3Computed inp < fltEpsilon ∧ -fltEpsilon < det3Computed inp then
    (false, Adjoint3x3 inp)
  else
    (true, mat3.scale (1 / det3Computed inp) (Adjoint3x3 inp))

end VecMat

namespace VecMat

/-- C3 counterexample: for the input `diag(2^-30, 1, 1)` the determinant is
`2^-30`, inside the FLT_EPSILON band, so `InvertMatrix3x3` returns false —
but the output it leaves behind is the raw adjugate `diag(1, 2^-30, 2^-30)`
(entry [0][0] is 1), NOT the adjugate divided by the near-zero determinant
(whose entry [0][0] would be 2^30).  This refutes the claim that on a false
return the output holds the adjugate divided by the determinant. -/
theorem c3_invert3x3_false_output_not_divided :
    (InvertMatrix3x3 ⟨⟨1 / 2 ^ 30, 0, 0⟩, ⟨0, 1, 0⟩, ⟨0, 0, 1⟩⟩).1 = false ∧
    (InvertMatrix3x3 ⟨⟨1 / 2 ^ 30, 0, 0⟩, ⟨0, 1, 0⟩, ⟨0, 0, 1⟩⟩).2.r0.x = 1 ∧
    (mat3.scale (1 / det3Computed ⟨⟨1 / 2 ^ 30, 0, 0⟩, ⟨0, 1, 0⟩, ⟨0, 0, 1⟩⟩)
        (Adjoint3x3 ⟨⟨1 / 2 ^ 30, 0, 0⟩, ⟨0, 1, 0⟩, ⟨0, 0, 1⟩⟩)).r0.x = 2 ^ 30 ∧
    (1 : ℚ) ≠ 2 ^ 30 := by
  have hpos :
      det3Computed ⟨⟨1 / 2 ^ 30, 0, 0⟩, ⟨0, 1, 0⟩, ⟨0, 0, 1⟩⟩ < fltEpsilon ∧
      -fltEpsilon < det3Computed ⟨⟨1 / 2 ^ 30, 0, 0⟩, ⟨0, 1, 0⟩, ⟨0, 0, 1⟩⟩ := by
    constructor <;>
      · simp only [det3Computed, Adjoint3x3, fltEpsilon]
        norm_num
  rw [InvertMatrix3x3, if_pos hpos]
  refine ⟨rfl, ?_, ?_, by norm_num⟩
  · simp only [Adjoint3x3]
    norm_num
  · simp only [mat3.scale, det3Computed, Adjoint3x3]
    norm_num

/-- C3 amended: `InvertMatrix3x3` returns false exactly when the computed
determinant (which equals the textbook determinant of the input) satisfies
`|det| < FLT_EPSILON`; when it returns false the output holds the raw
adjugate (no division by the determinant is applied), and when it returns
true the output is the adjugate scaled by `1/det` (the inverse). -/
theorem c3_invert3x3_characterization (m : mat3 ℚ) :
    InvertMatrix3x3 m =
      (if |det3Computed m| < fltEpsilon then (false, Adjoint3x3 m)
       else (true, mat3.scale (1 / det3Computed m) (Adjoint3x3 m))) ∧
    det3Computed m = det3Spec m := by
  constructor
  · have hiff : (det3Computed m < fltEpsilon ∧ -fltEpsilon < det3Computed m) ↔
        |det3Computed m| < fltEpsilon := by
      rw [abs_lt]
      tauto
    rw [InvertMatrix3x3, if_congr hiff rfl rfl]
  · obtain ⟨⟨a, b, c⟩, ⟨d, e, f⟩, ⟨g, h, i⟩⟩ := m
    simp only [det3Computed, det3Spec, Adjoint3x3]
    ring

end VecMat

namespace VecMat

/-- The flat `float*` view of a `mat4` taken by `InvertMatrix4x4` via
`&m[0][0]` (VecMat.h line 516): index p reads row p/4, component p%4, in
the declared row-major layout.  Written as an if-chain on the index. -/
def mat4.toFlat (m : mat4) : ℕ → ℚ := fun p =>
  if p = 0 then m.r0.x else if p = 1 then m.r0.y
  else if p = 2 then m.r0.z else if p = 3 then m.r0.w
  else if p = 4 then m.r1.x else if p = 5 then m.r1.y
  else if p = 6 then m.r1.z else if p = 7 then m.r1.w
  else if p = 8 then m.r2.x else if p = 9 then m.r2.y
  else if p = 10 then m.r2.z else if p = 11 then m.r2.w
  else if p = 12 then m.r3.x else if p = 13 then m.r3.y
  else if p = 14 then m.r3.z else if p = 15 then m.r3.w
  else 0

/-- Rebuild a `mat4` from a flat row-major buffer (the inverse of
`mat4.toFlat`; this is how `Inverse` reads the output buffer written
through `&inv[0][0]`). -/
def mat4.ofFlat (f : ℕ → ℚ) : mat4 :=
  ⟨⟨f 0, f 1, f 2, f 3⟩, ⟨f 4, f 5, f 6, f 7⟩,
   ⟨f 8, f 9, f 10, f 11⟩, ⟨f 12, f 13, f 14, f 15⟩⟩

/-- Source `Helper::e(int a, int b, const float *m)` (VecMat.h line 477):
`m[(b%4)*4 + a%4]`.  Every call site passes nonnegative arguments, where C
`%` agrees with `Int.emod`. -/
def helperE (a b : ℤ) (m : ℕ → ℚ) : ℚ := m ((b.emod 4) * 4 + a.emod 4).toNat

/-- Source `Helper::invf(int i, int j, const float *m)` (VecMat.h line 480):
the 3x3-minor cofactor used by the 4x4 inverse, with the index shuffling
`o = 2+(j-i); i += 4+o; j += 4-o` and the final sign `(o%2)? inv : -inv`
(C truthiness: the negated branch is taken exactly when `o%2 == 0`). -/
def invf (i j : ℤ) (m : ℕ → ℚ) : ℚ :=
  let o : ℤ := 2 + (j - i)
  let i2 : ℤ := i + 4 + o
  let j2 : ℤ := j + 4 - o
  let inv :=
    helperE (i2 + 1) (j2 - 1) m * helperE i2 j2 m * helperE (i2 - 1) (j2 + 1) m +
      helperE (i2 + 1) (j2 + 1) m * helperE i2 (j2 - 1) m * helperE (i2 - 1) j2 m +
      helperE (i2 - 1) (j2 - 1) m * helperE (i2 + 1) j2 m * helperE i2 (j2 + 1) m -
      helperE (i2 - 1) (j2 - 1) m * helperE i2 j2 m * helperE (i2 + 1) (j2 + 1) m -
      helperE (i2 - 1) (j2 + 1) m * helperE i2 (j2 - 1) m * helperE (i2 + 1) j2 m -
      helperE (i2 + 1) (j2 - 1) m * helperE (i2 - 1) j2 m * helperE i2 (j2 + 1) m
  if o.emod 2 ≠ 0 then inv else -inv

/-- Source `Helper::invert`, the local buffer `inv[16]` (VecMat.h line 495):
`inv[j*4+i] = invf(i,j,m)`, so flat index p holds `invf(p%4, p/4, m)`. -/
def cofBuf (m : ℕ → ℚ) : ℕ → ℚ := fun p => invf (p % 4 : ℕ) (p / 4 : ℕ) m

/-- Source `Helper::invert`, the accumulation `D += m[k]*inv[k*4]` for
k = 0..3 (VecMat.h line 500): the determinant as computed by the code. -/
def detComputed4 (m : ℕ → ℚ) : ℚ :=
  ∑ k ∈ Finset.range 4, m k * cofBuf m (k * 4)

/-- Source `InvertMatrix4x4(const float *m, float *out)` (VecMat.h line 472)
= `Helper::invert(out)`: if the computed determinant `D` is exactly zero it
returns false before touching `out` (modelled as `none`); otherwise it
writes `out[i] = inv[i] * (1/D)` and returns true (modelled as `some` of
the written buffer). -/
def InvertMatrix4x4 (m : ℕ → ℚ) : Option (ℕ → ℚ) :=
  if detComputed4 m = 0 then none
  else some fun p => cofBuf m p * (1 / detComputed4 m)

/-- Source `Inverse(mat4 m)` (VecMat.h line 514): the local `mat4 inv` is
default-constructed to the identity; `InvertMatrix4x4` overwrites it on
success and leaves it untouched on failure. -/
def Inverse (m : mat4) : mat4 :=
  match InvertMatrix4x4 m.toFlat with
  | none => mat4.identity
  | some out => mat4.ofFlat out

/-- Source `mat4::operator*(const mat4 &m)` (VecMat.h line 358): starts
from `mat4 a(0)` (the zero matrix) and accumulates
`a[i][j] += row[i][k]*m[k][j]`; entry (i,j) of the product is the loop sum,
read and written through the row-major layout. -/
def mat4.mulMat (a m : mat4) : mat4 :=
  mat4.ofFlat fun p =>
    ∑ k ∈ Finset.range 4, a.toFlat (p / 4 * 4 + k) * m.toFlat (k * 4 + p % 4)

/-- The textbook 4x4 determinant (first-row cofactor expansion), used to
relate the determinant computed by `Helper::invert` to the determinant of
the input matrix. -/
def det4Spec (M : mat4) : ℚ :=
  M.r0.x * (M.r1.y * (M.r2.z * M.r3.w - M.r2.w * M.r3.z) -
      M.r1.z * (M.r2.y * M.r3.w - M.r2.w * M.r3.y) +
      M.r1.w * (M.r2.y * M.r3.z - M.r2.z * M.r3.y)) -
    M.r0.y * (M.r1.x * (M.r2.z * M.r3.w - M.r2.w * M.r3.z) -
      M.r1.z * (M.r2.x * M.r3.w - M.r2.w * M.r3.x) +
      M.r1.w * (M.r2.x * M.r3.z - M.r2.z * M.r3.x)) +
    M.r0.z * (M.r1.x * (M.r2.y * M.r3.w - M.r2.w * M.r3.y) -
      M.r1.y * (M.r2.x * M.r3.w - M.r2.w * M.r3.x) +
      M.r1.w * (M.r2.x * M.r3.y - M.r2.y * M.r3.x)) -
    M.r0.w * (M.r1.x * (M.r2.y * M.r3.z - M.r2.z * M.r3.y) -
      M.r1.y * (M.r2.x * M.r3.z - M.r2.z * M.r3.x) +
      M.r1.z * (M.r2.x * M.r3.y - M.r2.y * M.r3.x))

end VecMat

namespace VecMat

/-- Flat row-major access at index 0 is entry [0][0]. -/
theorem toFlat_0 (M : mat4) : M.toFlat 0 = M.r0.x := rfl

/-- Flat row-major access at index 1 is entry [0][1]. -/
theorem toFlat_1 (M : mat4) : M.toFlat 1 = M.r0.y := rfl

/-- Flat row-major access at index 2 is entry [0][2]. -/
theorem toFlat_2 (M : mat4) : M.toFlat 2 = M.r0.z := rfl

/-- Flat row-major access at index 3 is entry [0][3]. -/
theorem toFlat_3 (M : mat4) : M.toFlat 3 = M.r0.w := rfl

/-- Flat row-major access at index 4 is entry [1][0]. -/
theorem toFlat_4 (M : mat4) : M.toFlat 4 = M.r1.x := rfl

/-- Flat row-major access at index 5 is entry [1][1]. -/
theorem toFlat_5 (M : mat4) : M.toFlat 5 = M.r1.y := rfl

/-- Flat row-major access at index 6 is entry [1][2]. -/
theorem toFlat_6 (M : mat4) : M.toFlat 6 = M.r1.z := rfl

/-- Flat row-major access at index 7 is entry [1][3]. -/
theorem toFlat_7 (M : mat4) : M.toFlat 7 = M.r1.w := rfl

/-- Flat row-major access at index 8 is entry [2][0]. -/
theorem toFlat_8 (M : mat4) : M.toFlat 8 = M.r2.x := rfl

/-- Flat row-major access at index 9 is entry [2][1]. -/
theorem toFlat_9 (M : mat4) : M.toFlat 9 = M.r2.y := rfl

/-- Flat row-major access at index 10 is entry [2][2]. -/
theorem toFlat_10 (M : mat4) : M.toFlat 10 = M.r2.z := rfl

/-- Flat row-major access at index 11 is entry [2][3]. -/
theorem toFlat_11 (M : mat4) : M.toFlat 11 = M.r2.w := rfl

/-- Flat row-major access at index 12 is entry [3][0]. -/
theorem toFlat_12 (M : mat4) : M.toFlat 12 = M.r3.x := rfl

/-- Flat row-major access at index 13 is entry [3][1]. -/
theorem toFlat_13 (M : mat4) : M.toFlat 13 = M.r3.y := rfl

/-- Flat row-major access at index 14 is entry [3][2]. -/
theorem toFlat_14 (M : mat4) : M.toFlat 14 = M.r3.z := rfl

/-- Flat row-major access at index 15 is entry [3][3]. -/
theorem toFlat_15 (M : mat4) : M.toFlat 15 = M.r3.w := rfl

/-- The determinant accumulated by `Helper::invert`
(`D += m[k]*inv[k*4]`) equals the textbook determinant of the matrix. -/
theorem detComputed4_eq_det4Spec (M : mat4) : detComputed4 M.toFlat = det4Spec M := by
  simp only [detComputed4, cofBuf, Finset.sum_range_succ, Finset.sum_range_zero]
  norm_num [invf, helperE]
  simp only [Int.reduceToNat, toFlat_0, toFlat_1, toFlat_2, toFlat_3, toFlat_4, toFlat_5,
    toFlat_6, toFlat_7, toFlat_8, toFlat_9, toFlat_10, toFlat_11, toFlat_12, toFlat_13,
    toFlat_14, toFlat_15, det4Spec]
  ring

set_option maxHeartbeats 1000000 in
/-- When the computed determinant is nonzero, the matrix produced by
`Inverse` is a true right inverse: the `mat4` product with it is exactly
the identity (in exact arithmetic). -/
theorem mulMat_Inverse_eq_identity (M : mat4) (hD : detComputed4 M.toFlat ≠ 0) :
    mat4.mulMat M (Inverse M) = mat4.identity := by
  have hSpec : det4Spec M ≠ 0 := by
    rw [← detComputed4_eq_det4Spec]
    exact hD
  unfold Inverse
  rw [InvertMatrix4x4, if_neg hD]
  simp only [detComputed4_eq_det4Spec]
  simp only [mat4.mulMat, mat4.ofFlat, Finset.sum_range_succ, Finset.sum_range_zero]
  norm_num [cofBuf, invf, helperE]
  simp only [Int.reduceToNat, toFlat_0, toFlat_1, toFlat_2, toFlat_3, toFlat_4, toFlat_5,
    toFlat_6, toFlat_7, toFlat_8, toFlat_9, toFlat_10, toFlat_11, toFlat_12, toFlat_13,
    toFlat_14, toFlat_15, mat4.identity, mat4.diagonal, mat4.mk.injEq, vec4.mk.injEq]
  refine ⟨⟨?_, ?_, ?_, ?_⟩, ⟨?_, ?_, ?_, ?_⟩, ⟨?_, ?_, ?_, ?_⟩, ⟨?_, ?_, ?_, ?_⟩⟩ <;>
    · field_simp
      try simp only [det4Spec]
      try ring

end VecMat

namespace VecMat

/-- C2: `InvertMatrix4x4` fails with `none` (returns false, leaving the
output buffer unwritten) exactly when the determinant `D` it computes is
exactly zero — `D` equals the textbook determinant of the input — and on
every nonzero determinant it succeeds, writing the cofactor buffer scaled
by `1/D` to the output; the test is exact-zero, with no epsilon band. -/
theorem c2_invert4x4_exact_zero_test (M : mat4) :
    (InvertMatrix4x4 M.toFlat = none ↔ detComputed4 M.toFlat = 0) ∧
    detComputed4 M.toFlat = det4Spec M ∧
    InvertMatrix4x4 M.toFlat =
      (if detComputed4 M.toFlat = 0 then none
       else some fun p => cofBuf M.toFlat p * (1 / detComputed4 M.toFlat)) := by
  refine ⟨?_, detComputed4_eq_det4Spec M, rfl⟩
  rw [InvertMatrix4x4]
  split_ifs with h
  · simp [h]
  · simp [h]

/-- C4: for every mat4 with nonzero computed determinant, each entry of
`M * Inverse(M)` is within 1/10000 of the corresponding identity entry (in
the exact-arithmetic model the product is exactly the identity, so the
difference is zero). -/
theorem c4_mul_inverse_approx_identity (M : mat4) (hD : detComputed4 M.toFlat ≠ 0) :
    ∀ i j : Fin 4,
      |(mat4.mulMat M (Inverse M)).toFlat (i.val * 4 + j.val) -
        mat4.identity.toFlat (i.val * 4 + j.val)| ≤ 1 / 10000 := by
  intro i j
  rw [mulMat_Inverse_eq_identity M hD, sub_self, abs_zero]
  norm_num

/-- Witness for C4 at the identity matrix (computed determinant 1). -/
theorem c4_mul_inverse_approx_identity_witness :
    detComputed4 (mat4.diagonal 1).toFlat ≠ 0 ∧
    ∀ i j : Fin 4,
      |(mat4.mulMat (mat4.diagonal 1) (Inverse (mat4.diagonal 1))).toFlat
          (i.val * 4 + j.val) -
        mat4.identity.toFlat (i.val * 4 + j.val)| ≤ 1 / 10000 := by
  have h : detComputed4 (mat4.diagonal 1).toFlat ≠ 0 := by
    rw [detComputed4_eq_det4Spec]
    simp only [det4Spec, mat4.diagonal]
    norm_num
  exact ⟨h, c4_mul_inverse_approx_identity (mat4.diagonal 1) h⟩

/-- C10: for every mat4 whose computed determinant is exactly zero,
`Inverse` returns the identity matrix: the local output starts as the
default-constructed identity and `InvertMatrix4x4` returns false without
writing it. -/
theorem c10_inverse_singular_identity (M : mat4) (hD : detComputed4 M.toFlat = 0) :
    Inverse M = mat4.identity := by
  unfold Inverse
  rw [InvertMatrix4x4, if_pos hD]

/-- Witness for C10 at the zero matrix (computed determinant 0). -/
theorem c10_inverse_singular_identity_witness :
    detComputed4 (mat4.diagonal 0).toFlat = 0 ∧
    Inverse (mat4.diagonal 0) = mat4.identity := by
  have h : detComputed4 (mat4.diagonal 0).toFlat = 0 := by
    rw [detComputed4_eq_det4Spec]
    simp only [det4Spec, mat4.diagonal]
    norm_num
  exact ⟨h, c10_inverse_singular_identity (mat4.diagonal 0) h⟩

end VecMat

namespace VecMat

/-- Source `vec3::operator-()` at ℚ (unary negation, VecMat.h line 95). -/
def vec3q.neg (v : vec3 ℚ) : vec3 ℚ := ⟨-v.x, -v.y, -v.z⟩

/-- Source `vec3::operator-(const vec3&)` at ℚ (VecMat.h line 97). -/
def vec3q.sub (a v : vec3 ℚ) : vec3 ℚ := ⟨a.x - v.x, a.y - v.y, a.z - v.z⟩

/-- One iteration of the `Bounds(vec2*)` loop body (VecMat.h lines 72-74):
update the running min with `min.x < p.x ? min.x : p.x` (and y alike) and
the running max with `max.x > p.x ? max.x : p.x`. -/
def bstep2 (mm : vec2 × vec2) (p : vec2) : vec2 × vec2 :=
  (⟨if mm.1.x < p.x then mm.1.x else p.x, if mm.1.y < p.y then mm.1.y else p.y⟩,
   ⟨if mm.2.x > p.x then mm.2.x else p.x, if mm.2.y > p.y then mm.2.y else p.y⟩)

/-- Source `Bounds(vec2 *points, int npoints, vec2 &min, vec2 &max)`
(VecMat.h line 69): `max = -(min = vec2(FLT_MAX))`, then the fold above
over the points; returns (min, max, largest span) where the span is
`dif.x > dif.y ? dif.x : dif.y` for `dif = max - min`. -/
def Bounds2 (points : List vec2) : vec2 × vec2 × ℚ :=
  let mm := points.foldl bstep2 (⟨fltMax, fltMax⟩, vec2.neg ⟨fltMax, fltMax⟩)
  let dif := vec2.sub mm.2 mm.1
  (mm.1, mm.2, if dif.x > dif.y then dif.x else dif.y)

/-- One iteration of the `Bounds(vec3*)` loop body (VecMat.h lines 120-122). -/
def bstep3 (mm : vec3 ℚ × vec3 ℚ) (p : vec3 ℚ) : vec3 ℚ × vec3 ℚ :=
  (⟨if mm.1.x < p.x then mm.1.x else p.x, if mm.1.y < p.y then mm.1.y else p.y,
    if mm.1.z < p.z then mm.1.z else p.z⟩,
   ⟨if mm.2.x > p.x then mm.2.x else p.x, if mm.2.y > p.y then mm.2.y else p.y,
    if mm.2.z > p.z then mm.2.z else p.z⟩)

/-- Source `Bounds(vec3 *points, int npoints, vec3 &min, vec3 &max)`
(VecMat.h line 117), with the nested-ternary three-way span
`dif.x > dif.y ? (dif.z > dif.x ? dif.z : dif.x) : (dif.z > dif.y ? dif.z : dif.y)`. -/
def Bounds3 (points : List (vec3 ℚ)) : vec3 ℚ × vec3 ℚ × ℚ :=
  let mm := points.foldl bstep3 (⟨fltMax, fltMax, fltMax⟩, vec3q.neg ⟨fltMax, fltMax, fltMax⟩)
  let dif := vec3q.sub mm.2 mm.1
  (mm.1, mm.2,
   if dif.x > dif.y then (if dif.z > dif.x then dif.z else dif.x)
   else (if dif.z > dif.y then dif.z else dif.y))

/-- The loop conditional `a < b ? a : b` computes the minimum. -/
theorem ite_lt_eq_min (a b : ℚ) : (if a < b then a else b) = min a b := by
  split_ifs with h
  · exact (min_eq_left h.le).symm
  · exact (min_eq_right (not_lt.mp h)).symm

/-- The loop conditional `a > b ? a : b` computes the maximum. -/
theorem ite_gt_eq_max (a b : ℚ) : (if a > b then a else b) = max a b := by
  split_ifs with h
  · exact (max_eq_left h.le).symm
  · exact (max_eq_right (not_lt.mp h)).symm

/-- Folding min over a list never exceeds the initial accumulator. -/
theorem foldl_min_le_init (l : List ℚ) : ∀ a : ℚ, l.foldl min a ≤ a := by
  induction l with
  | nil => intro a; simp
  | cons c l ih =>
    intro a
    simp only [List.foldl_cons]
    exact le_trans (ih (min a c)) (min_le_left a c)

/-- Folding min over a list is a lower bound for every list element. -/
theorem foldl_min_le_mem (l : List ℚ) : ∀ a b : ℚ, b ∈ l → l.foldl min a ≤ b := by
  induction l with
  | nil => intro a b hb; simp at hb
  | cons c l ih =>
    intro a b hb
    simp only [List.foldl_cons]
    rcases List.mem_cons.mp hb with hb | hb
    · subst hb
      exact le_trans (foldl_min_le_init l (min a b)) (min_le_right a b)
    · exact ih (min a c) b hb

/-- Folding min over a list yields the accumulator or a list element. -/
theorem foldl_min_mem_or (l : List ℚ) : ∀ a : ℚ, l.foldl min a = a ∨ l.foldl min a ∈ l := by
  induction l with
  | nil => intro a; left; rfl
  | cons c l ih =>
    intro a
    simp only [List.foldl_cons]
    rcases ih (min a c) with h | h
    · rcases min_choice a c with hc | hc
      · left; rw [h, hc]
      · right; rw [h, hc]; exact List.mem_cons_self c l
    · right; exact List.mem_cons_of_mem c h

/-- On a nonempty list whose head is at most the accumulator, the min fold
is attained by a list element. -/
theorem foldl_min_mem_cons (a c : ℚ) (l : List ℚ) (hc : c ≤ a) :
    (c :: l).foldl min a ∈ c :: l := by
  rcases foldl_min_mem_or (c :: l) a with h | h
  · have h1 : (c :: l).foldl min a ≤ c := foldl_min_le_mem _ _ _ (List.mem_cons_self c l)
    have h2 : c ≤ (c :: l).foldl min a := by rw [h]; exact hc
    rw [le_antisymm h1 h2]
    exact List.mem_cons_self c l
  · exact h

/-- Folding max over a list is at least the initial accumulator. -/
theorem foldl_max_init_le (l : List ℚ) : ∀ a : ℚ, a ≤ l.foldl max a := by
  induction l with
  | nil => intro a; simp
  | cons c l ih =>
    intro a
    simp only [List.foldl_cons]
    exact le_trans (le_max_left a c) (ih (max a c))

/-- Folding max over a list is an upper bound for every list element. -/
theorem foldl_max_mem_le (l : List ℚ) : ∀ a b : ℚ, b ∈ l → b ≤ l.foldl max a := by
  induction l with
  | nil => intro a b hb; simp at hb
  | cons c l ih =>
    intro a b hb
    simp only [List.foldl_cons]
    rcases List.mem_cons.mp hb with hb | hb
    · subst hb
      exact le_trans (le_max_right a b) (foldl_max_init_le l (max a b))
    · exact ih (max a c) b hb

/-- Folding max over a list yields the accumulator or a list element. -/
theorem foldl_max_mem_or (l : List ℚ) : ∀ a : ℚ, l.foldl max a = a ∨ l.foldl max a ∈ l := by
  induction l with
  | nil => intro a; left; rfl
  | cons c l ih =>
    intro a
    simp only [List.foldl_cons]
    rcases ih (max a c) with h | h
    · rcases max_choice a c with hc | hc
      · left; rw [h, hc]
      · right; rw [h, hc]; exact List.mem_cons_self c l
    · right; exact List.mem_cons_of_mem c h

/-- On a nonempty list whose head is at least the accumulator, the max fold
is attained by a list element. -/
theorem foldl_max_mem_cons (a c : ℚ) (l : List ℚ) (hc : a ≤ c) :
    (c :: l).foldl max a ∈ c :: l := by
  rcases foldl_max_mem_or (c :: l) a with h | h
  · have h1 : c ≤ (c :: l).foldl max a := foldl_max_mem_le _ _ _ (List.mem_cons_self c l)
    rw [show (c :: l).foldl max a = c from le_antisymm (by rw [h]; exact hc) h1]
    exact List.mem_cons_self c l
  · exact h

/-- The paired Bounds(vec2) fold decomposes into four scalar min/max folds
over the coordinate lists. -/
theorem bounds2_fold (ps : List vec2) : ∀ mn mx : vec2,
    ps.foldl bstep2 (mn, mx) =
      (⟨(ps.map vec2.x).foldl min mn.x, (ps.map vec2.y).foldl min mn.y⟩,
       ⟨(ps.map vec2.x).foldl max mx.x, (ps.map vec2.y).foldl max mx.y⟩) := by
  induction ps with
  | nil => intro mn mx; rfl
  | cons p ps ih =>
    intro mn mx
    simp only [List.foldl_cons, List.map_cons]
    rw [show bstep2 (mn, mx) p =
        (⟨min mn.x p.x, min mn.y p.y⟩, ⟨max mx.x p.x, max mx.y p.y⟩) from by
      simp only [bstep2, ite_lt_eq_min, ite_gt_eq_max]]
    exact ih _ _

/-- The paired Bounds(vec3) fold decomposes into six scalar min/max folds
over the coordinate lists. -/
theorem bounds3_fold (ps : List (vec3 ℚ)) : ∀ mn mx : vec3 ℚ,
    ps.foldl bstep3 (mn, mx) =
      (⟨(ps.map vec3.x).foldl min mn.x, (ps.map vec3.y).foldl min mn.y,
        (ps.map vec3.z).foldl min mn.z⟩,
       ⟨(ps.map vec3.x).foldl max mx.x, (ps.map vec3.y).foldl max mx.y,
        (ps.map vec3.z).foldl max mx.z⟩) := by
  induction ps with
  | nil => intro mn mx; rfl
  | cons p ps ih =>
    intro mn mx
    simp only [List.foldl_cons, List.map_cons]
    rw [show bstep3 (mn, mx) p =
        (⟨min mn.x p.x, min mn.y p.y, min mn.z p.z⟩,
         ⟨max mx.x p.x, max mx.y p.y, max mx.z p.z⟩) from by
      simp only [bstep3, ite_lt_eq_min, ite_gt_eq_max]]
    exact ih _ _

end VecMat

namespace VecMat

/-- The nested span ternary of Bounds(vec3) computes the three-way maximum. -/
theorem ite_span3_eq_max (a b c : ℚ) :
    (if a > b then (if c > a then c else a) else (if c > b then c else b)) =
      max c (max a b) := by
  rcases le_or_lt a b with hab | hab
  · rw [if_neg (not_lt.mpr hab), ite_gt_eq_max, max_eq_right hab]
  · rw [if_pos hab, ite_gt_eq_max, max_eq_left hab.le]

/-- C8: called with zero points, `Bounds` leaves min at the FLT_MAX
sentinel and max at the -FLT_MAX sentinel in every component and still
returns a span value (no error is reported); called with at least one
point (all coordinates in the float range [-FLT_MAX, FLT_MAX]), min and
max are the componentwise minimum and maximum over the points (lower/upper
bounds that are attained by some point, per component) and the return
value is the largest componentwise span `max - min` across axes.  Both the
vec2 and vec3 overloads are covered. -/
theorem c8_bounds_sentinels_and_extrema :
    (Bounds2 [] = (⟨fltMax, fltMax⟩, ⟨-fltMax, -fltMax⟩, -fltMax - fltMax)) ∧
    (Bounds3 [] = (⟨fltMax, fltMax, fltMax⟩, ⟨-fltMax, -fltMax, -fltMax⟩, -fltMax - fltMax)) ∧
    (∀ (p : vec2) (ps : List vec2),
      (∀ q ∈ p :: ps, |q.x| ≤ fltMax ∧ |q.y| ≤ fltMax) →
      (∀ q ∈ p :: ps,
        (Bounds2 (p :: ps)).1.x ≤ q.x ∧ (Bounds2 (p :: ps)).1.y ≤ q.y ∧
        q.x ≤ (Bounds2 (p :: ps)).2.1.x ∧ q.y ≤ (Bounds2 (p :: ps)).2.1.y) ∧
      ((∃ q ∈ p :: ps, (Bounds2 (p :: ps)).1.x = q.x) ∧
       (∃ q ∈ p :: ps, (Bounds2 (p :: ps)).1.y = q.y) ∧
       (∃ q ∈ p :: ps, (Bounds2 (p :: ps)).2.1.x = q.x) ∧
       (∃ q ∈ p :: ps, (Bounds2 (p :: ps)).2.1.y = q.y)) ∧
      (Bounds2 (p :: ps)).2.2 =
        max ((Bounds2 (p :: ps)).2.1.x - (Bounds2 (p :: ps)).1.x)
          ((Bounds2 (p :: ps)).2.1.y - (Bounds2 (p :: ps)).1.y)) ∧
    (∀ (p : vec3 ℚ) (ps : List (vec3 ℚ)),
      (∀ q ∈ p :: ps, |q.x| ≤ fltMax ∧ |q.y| ≤ fltMax ∧ |q.z| ≤ fltMax) →
      (∀ q ∈ p :: ps,
        (Bounds3 (p :: ps)).1.x ≤ q.x ∧ (Bounds3 (p :: ps)).1.y ≤ q.y ∧
        (Bounds3 (p :: ps)).1.z ≤ q.z ∧
        q.x ≤ (Bounds3 (p :: ps)).2.1.x ∧ q.y ≤ (Bounds3 (p :: ps)).2.1.y ∧
        q.z ≤ (Bounds3 (p :: ps)).2.1.z) ∧
      ((∃ q ∈ p :: ps, (Bounds3 (p :: ps)).1.x = q.x) ∧
       (∃ q ∈ p :: ps, (Bounds3 (p :: ps)).1.y = q.y) ∧
       (∃ q ∈ p :: ps, (Bounds3 (p :: ps)).1.z = q.z) ∧
       (∃ q ∈ p :: ps, (Bounds3 (p :: ps)).2.1.x = q.x) ∧
       (∃ q ∈ p :: ps, (Bounds3 (p :: ps)).2.1.y = q.y) ∧
       (∃ q ∈ p :: ps, (Bounds3 (p :: ps)).2.1.z = q.z)) ∧
      (Bounds3 (p :: ps)).2.2 =
        max ((Bounds3 (p :: ps)).2.1.z - (Bounds3 (p :: ps)).1.z)
          (max ((Bounds3 (p :: ps)).2.1.x - (Bounds3 (p :: ps)).1.x)
            ((Bounds3 (p :: ps)).2.1.y - (Bounds3 (p :: ps)).1.y))) := by
  refine ⟨?_, ?_, ?_, ?_⟩
  · simp only [Bounds2, List.foldl_nil, vec2.neg, vec2.sub]
    norm_num
  · simp only [Bounds3, List.foldl_nil, vec3q.neg, vec3q.sub]
    norm_num
  · intro p ps hrange
    have hB : Bounds2 (p :: ps) =
        (⟨(p.x :: ps.map vec2.x).foldl min fltMax, (p.y :: ps.map vec2.y).foldl min fltMax⟩,
         ⟨(p.x :: ps.map vec2.x).foldl max (-fltMax), (p.y :: ps.map vec2.y).foldl max (-fltMax)⟩,
         max ((p.x :: ps.map vec2.x).foldl max (-fltMax) - (p.x :: ps.map vec2.x).foldl min fltMax)
           ((p.y :: ps.map vec2.y).foldl max (-fltMax) - (p.y :: ps.map vec2.y).foldl min fltMax)) := by
      simp only [Bounds2, vec2.neg, bounds2_fold, List.map_cons, vec2.sub, ite_gt_eq_max]
    have hmemx : ∀ q ∈ p :: ps, q.x ∈ p.x :: ps.map vec2.x := by
      intro q hq
      rcases List.mem_cons.mp hq with h | h
      · subst h; exact List.mem_cons_self _ _
      · exact List.mem_cons_of_mem _ (List.mem_map_of_mem vec2.x h)
    have hmemy : ∀ q ∈ p :: ps, q.y ∈ p.y :: ps.map vec2.y := by
      intro q hq
      rcases List.mem_cons.mp hq with h | h
      · subst h; exact List.mem_cons_self _ _
      · exact List.mem_cons_of_mem _ (List.mem_map_of_mem vec2.y h)
    have hpx := hrange p (List.mem_cons_self p ps)
    have hex : ∀ r ∈ p.x :: ps.map vec2.x, ∃ q ∈ p :: ps, r = q.x := by
      intro r hr
      rcases List.mem_cons.mp hr with h | h
      · exact ⟨p, List.mem_cons_self p ps, h⟩
      · obtain ⟨q, hq, hqe⟩ := List.mem_map.mp h
        exact ⟨q, List.mem_cons_of_mem _ hq, hqe.symm⟩
    have hey : ∀ r ∈ p.y :: ps.map vec2.y, ∃ q ∈ p :: ps, r = q.y := by
      intro r hr
      rcases List.mem_cons.mp hr with h | h
      · exact ⟨p, List.mem_cons_self p ps, h⟩
      · obtain ⟨q, hq, hqe⟩ := List.mem_map.mp h
        exact ⟨q, List.mem_cons_of_mem _ hq, hqe.symm⟩
    rw [hB]
    refine ⟨?_, ⟨?_, ?_, ?_, ?_⟩, rfl⟩
    · intro q hq
      exact ⟨foldl_min_le_mem _ _ _ (hmemx q hq), foldl_min_le_mem _ _ _ (hmemy q hq),
        foldl_max_mem_le _ _ _ (hmemx q hq), foldl_max_mem_le _ _ _ (hmemy q hq)⟩
    · exact hex _ (foldl_min_mem_cons _ _ _ (abs_le.mp hpx.1).2)
    · exact hey _ (foldl_min_mem_cons _ _ _ (abs_le.mp hpx.2).2)
    · exact hex _ (foldl_max_mem_cons _ _ _ (abs_le.mp hpx.1).1)
    · exact hey _ (foldl_max_mem_cons _ _ _ (abs_le.mp hpx.2).1)
  · intro p ps hrange
    have hB : Bounds3 (p :: ps) =
        (⟨(p.x :: ps.map vec3.x).foldl min fltMax, (p.y :: ps.map vec3.y).foldl min fltMax,
          (p.z :: ps.map vec3.z).foldl min fltMax⟩,
         ⟨(p.x :: ps.map vec3.x).foldl max (-fltMax), (p.y :: ps.map vec3.y).foldl max (-fltMax),
          (p.z :: ps.map vec3.z).foldl max (-fltMax)⟩,
         max ((p.z :: ps.map vec3.z).foldl max (-fltMax) - (p.z :: ps.map vec3.z).foldl min fltMax)
           (max ((p.x :: ps.map vec3.x).foldl max (-fltMax) - (p.x :: ps.map vec3.x).foldl min fltMax)
             ((p.y :: ps.map vec3.y).foldl max (-fltMax) - (p.y :: ps.map vec3.y).foldl min fltMax))) := by
      simp only [Bounds3, vec3q.neg, bounds3_fold, List.map_cons, vec3q.sub, ite_span3_eq_max]
    have hmemx : ∀ q ∈ p :: ps, q.x ∈ p.x :: ps.map vec3.x := by
      intro q hq
      rcases List.mem_cons.mp hq with h | h
      · subst h; exact List.mem_cons_self _ _
      · exact List.mem_cons_of_mem _ (List.mem_map_of_mem vec3.x h)
    have hmemy : ∀ q ∈ p :: ps, q.y ∈ p.y :: ps.map vec3.y := by
      intro q hq
      rcases List.mem_cons.mp hq with h | h
      · subst h; exact List.mem_cons_self _ _
      · exact List.mem_cons_of_mem _ (List.mem_map_of_mem vec3.y h)
    have hmemz : ∀ q ∈ p :: ps, q.z ∈ p.z :: ps.map vec3.z := by
      intro q hq
      rcases List.mem_cons.mp hq with h | h
      · subst h; exact List.mem_cons_self _ _
      · exact List.mem_cons_of_mem _ (List.mem_map_of_mem vec3.z h)
    have hpx := hrange p (List.mem_cons_self p ps)
    have hex : ∀ r ∈ p.x :: ps.map vec3.x, ∃ q ∈ p :: ps, r = q.x := by
      intro r hr
      rcases List.mem_cons.mp hr with h | h
      · exact ⟨p, List.mem_cons_self p ps, h⟩
      · obtain ⟨q, hq, hqe⟩ := List.mem_map.mp h
        exact ⟨q, List.mem_cons_of_mem _ hq, hqe.symm⟩
    have hey : ∀ r ∈ p.y :: ps.map vec3.y, ∃ q ∈ p :: ps, r = q.y := by
      intro r hr
      rcases List.mem_cons.mp hr with h | h
      · exact ⟨p, List.mem_cons_self p ps, h⟩
      · obtain ⟨q, hq, hqe⟩ := List.mem_map.mp h
        exact ⟨q, List.mem_cons_of_mem _ hq, hqe.symm⟩
    have hez : ∀ r ∈ p.z :: ps.map vec3.z, ∃ q ∈ p :: ps, r = q.z := by
      intro r hr
      rcases List.mem_cons.mp hr with h | h
      · exact ⟨p, List.mem_cons_self p ps, h⟩
      · obtain ⟨q, hq, hqe⟩ := List.mem_map.mp h
        exact ⟨q, List.mem_cons_of_mem _ hq, hqe.symm⟩
    rw [hB]
    refine ⟨?_, ⟨?_, ?_, ?_, ?_, ?_, ?_⟩, rfl⟩
    · intro q hq
      exact ⟨foldl_min_le_mem _ _ _ (hmemx q hq), foldl_min_le_mem _ _ _ (hmemy q hq),
        foldl_min_le_mem _ _ _ (hmemz q hq), foldl_max_mem_le _ _ _ (hmemx q hq),
        foldl_max_mem_le _ _ _ (hmemy q hq), foldl_max_mem_le _ _ _ (hmemz q hq)⟩
    · exact hex _ (foldl_min_mem_cons _ _ _ (abs_le.mp hpx.1).2)
    · exact hey _ (foldl_min_mem_cons _ _ _ (abs_le.mp hpx.2.1).2)
    · exact hez _ (foldl_min_mem_cons _ _ _ (abs_le.mp hpx.2.2).2)
    · exact hex _ (foldl_max_mem_cons _ _ _ (abs_le.mp hpx.1).1)
    · exact hey _ (foldl_max_mem_cons _ _ _ (abs_le.mp hpx.2.1).1)
    · exact hez _ (foldl_max_mem_cons _ _ _ (abs_le.mp hpx.2.2).1)

end VecMat

namespace VecMat

/-- Witness for C8 at the points {(0,0),(2,3),(-1,5)} (the spec's own
example), which are trivially inside the float range. -/
theorem c8_bounds_witness :
    (∀ q ∈ [(⟨0, 0⟩ : vec2), ⟨2, 3⟩, ⟨-1, 5⟩], |q.x| ≤ fltMax ∧ |q.y| ≤ fltMax) ∧
    ((∀ q ∈ [(⟨0, 0⟩ : vec2), ⟨2, 3⟩, ⟨-1, 5⟩],
        (Bounds2 [(⟨0, 0⟩ : vec2), ⟨2, 3⟩, ⟨-1, 5⟩]).1.x ≤ q.x ∧
        (Bounds2 [(⟨0, 0⟩ : vec2), ⟨2, 3⟩, ⟨-1, 5⟩]).1.y ≤ q.y ∧
        q.x ≤ (Bounds2 [(⟨0, 0⟩ : vec2), ⟨2, 3⟩, ⟨-1, 5⟩]).2.1.x ∧
        q.y ≤ (Bounds2 [(⟨0, 0⟩ : vec2), ⟨2, 3⟩, ⟨-1, 5⟩]).2.1.y) ∧
     ((∃ q ∈ [(⟨0, 0⟩ : vec2), ⟨2, 3⟩, ⟨-1, 5⟩],
        (Bounds2 [(⟨0, 0⟩ : vec2), ⟨2, 3⟩, ⟨-1, 5⟩]).1.x = q.x) ∧
      (∃ q ∈ [(⟨0, 0⟩ : vec2), ⟨2, 3⟩, ⟨-1, 5⟩],
        (Bounds2 [(⟨0, 0⟩ : vec2), ⟨2, 3⟩, ⟨-1, 5⟩]).1.y = q.y) ∧
      (∃ q ∈ [(⟨0, 0⟩ : vec2), ⟨2, 3⟩, ⟨-1, 5⟩],
        (Bounds2 [(⟨0, 0⟩ : vec2), ⟨2, 3⟩, ⟨-1, 5⟩]).2.1.x = q.x) ∧
      (∃ q ∈ [(⟨0, 0⟩ : vec2), ⟨2, 3⟩, ⟨-1, 5⟩],
        (Bounds2 [(⟨0, 0⟩ : vec2), ⟨2, 3⟩, ⟨-1, 5⟩]).2.1.y = q.y)) ∧
     (Bounds2 [(⟨0, 0⟩ : vec2), ⟨2, 3⟩, ⟨-1, 5⟩]).2.2 =
       max ((Bounds2 [(⟨0, 0⟩ : vec2), ⟨2, 3⟩, ⟨-1, 5⟩]).2.1.x -
           (Bounds2 [(⟨0, 0⟩ : vec2), ⟨2, 3⟩, ⟨-1, 5⟩]).1.x)
         ((Bounds2 [(⟨0, 0⟩ : vec2), ⟨2, 3⟩, ⟨-1, 5⟩]).2.1.y -
           (Bounds2 [(⟨0, 0⟩ : vec2), ⟨2, 3⟩, ⟨-1, 5⟩]).1.y)) := by
  have hrange : ∀ q ∈ [(⟨0, 0⟩ : vec2), ⟨2, 3⟩, ⟨-1, 5⟩], |q.x| ≤ fltMax ∧ |q.y| ≤ fltMax := by
    intro q hq
    simp only [List.mem_cons, List.not_mem_nil, or_false] at hq
    rcases hq with h | h | h <;>
      · subst h
        constructor <;> (rw [fltMax]; rw [abs_le]; constructor <;> norm_num)
  exact ⟨hrange, c8_bounds_sentinels_and_extrema.2.2.1 ⟨0, 0⟩ [⟨2, 3⟩, ⟨-1, 5⟩] hrange⟩

end VecMat

namespace VecMat

/-- Source `#define _PI 3.141592f` (VecMat.h line 526): the code's pi
constant is the literal 3.141592, not the exact pi. -/
noncomputable def piConst : ℝ := 3.141592

/-- FLT_EPSILON as a real, for the `Get3x3` degenerate-norm check. -/
noncomputable def fltEpsilonR : ℝ := 1 / 2 ^ 23

/-- Source `class Quaternion` (VecMat.h line 524): four floats x, y, z, w. -/
structure Quaternion where
  x : ℝ
  y : ℝ
  z : ℝ
  w : ℝ

/-- Source `Quaternion::operator+` (VecMat.h line 578). -/
noncomputable def Quaternion.add (a q : Quaternion) : Quaternion :=
  ⟨a.x + q.x, a.y + q.y, a.z + q.z, a.w + q.w⟩

/-- Source `Quaternion::operator*(float s)` (VecMat.h line 579):
`Quaternion(s*x, s*y, s*z, s*w)`. -/
noncomputable def Quaternion.scale (a : Quaternion) (s : ℝ) : Quaternion :=
  ⟨s * a.x, s * a.y, s * a.z, s * a.w⟩

/-- Source `Quaternion::Dot` (VecMat.h line 606). -/
noncomputable def Quaternion.Dot (qL qR : Quaternion) : ℝ :=
  qL.x * qR.x + qL.y * qR.y + qL.z * qR.z + qL.w * qR.w

/-- Source `Quaternion::Norm` (VecMat.h line 587): `x*x+y*y+z*z+w*w` (the
squared length). -/
noncomputable def Quaternion.Norm (q : Quaternion) : ℝ :=
  q.x * q.x + q.y * q.y + q.z * q.z + q.w * q.w

/-- Source constructor `Quaternion(mat3 mat)` (VecMat.h line 535), which
presumes a pure rotation matrix.  If `tr >= 0`: `w = sqrt(.25(tr+1))`,
`s = .25/w`, `x = (mat[Z][Y]-mat[Y][Z])*s`, `y = (mat[X][Z]-mat[Z][X])*s`,
`z = (mat[Y][X]-mat[X][Y])*s`.  Otherwise the switch picks the largest
diagonal entry (X if `m00 >= m11` and `m00 >= m22`, else Z; or Y if
`m11 >= m22`, else Z) and applies `caseMacro(i,j,k,I,J,K)` verbatim. -/
noncomputable def Quaternion.ofMat3 (mat : mat3 ℝ) : Quaternion :=
  if mat.r0.x + mat.r1.y + mat.r2.z ≥ 0 then
    ⟨(mat.r2.y - mat.r1.z) * (0.25 / Real.sqrt (0.25 * (mat.r0.x + mat.r1.y + mat.r2.z + 1))),
     (mat.r0.z - mat.r2.x) * (0.25 / Real.sqrt (0.25 * (mat.r0.x + mat.r1.y + mat.r2.z + 1))),
     (mat.r1.x - mat.r0.y) * (0.25 / Real.sqrt (0.25 * (mat.r0.x + mat.r1.y + mat.r2.z + 1))),
     Real.sqrt (0.25 * (mat.r0.x + mat.r1.y + mat.r2.z + 1))⟩
  else if mat.r0.x ≥ mat.r1.y then
    if mat.r0.x ≥ mat.r2.z then
      ⟨Real.sqrt (0.25 * (mat.r0.x - mat.r1.y - mat.r2.z + 1)),
       (mat.r0.y + mat.r1.x) * (0.25 / Real.sqrt (0.25 * (mat.r0.x - mat.r1.y - mat.r2.z + 1))),
       (mat.r2.x + mat.r0.z) * (0.25 / Real.sqrt (0.25 * (mat.r0.x - mat.r1.y - mat.r2.z + 1))),
       (mat.r2.y - mat.r1.z) * (0.25 / Real.sqrt (0.25 * (mat.r0.x - mat.r1.y - mat.r2.z + 1)))⟩
    else
      ⟨(mat.r2.x + mat.r0.z) * (0.25 / Real.sqrt (0.25 * (mat.r2.z - mat.r0.x - mat.r1.y + 1))),
       (mat.r1.z + mat.r2.y) * (0.25 / Real.sqrt (0.25 * (mat.r2.z - mat.r0.x - mat.r1.y + 1))),
       Real.sqrt (0.25 * (mat.r2.z - mat.r0.x - mat.r1.y + 1)),
       (mat.r1.x - mat.r0.y) * (0.25 / Real.sqrt (0.25 * (mat.r2.z - mat.r0.x - mat.r1.y + 1)))⟩
  else if mat.r1.y ≥ mat.r2.z then
    ⟨(mat.r0.y + mat.r1.x) * (0.25 / Real.sqrt (0.25 * (mat.r1.y - mat.r2.z - mat.r0.x + 1))),
     Real.sqrt (0.25 * (mat.r1.y - mat.r2.z - mat.r0.x + 1)),
     (mat.r1.z + mat.r2.y) * (0.25 / Real.sqrt (0.25 * (mat.r1.y - mat.r2.z - mat.r0.x + 1))),
     (mat.r0.z - mat.r2.x) * (0.25 / Real.sqrt (0.25 * (mat.r1.y - mat.r2.z - mat.r0.x + 1)))⟩
  else
    ⟨(mat.r2.x + mat.r0.z) * (0.25 / Real.sqrt (0.25 * (mat.r2.z - mat.r0.x - mat.r1.y + 1))),
     (mat.r1.z + mat.r2.y) * (0.25 / Real.sqrt (0.25 * (mat.r2.z - mat.r0.x - mat.r1.y + 1))),
     Real.sqrt (0.25 * (mat.r2.z - mat.r0.x - mat.r1.y + 1)),
     (mat.r1.x - mat.r0.y) * (0.25 / Real.sqrt (0.25 * (mat.r2.z - mat.r0.x - mat.r1.y + 1)))⟩

/-- Source `Quaternion::Get3x3` (VecMat.h line 588): identity fallback when
`|norm| < FLT_EPSILON`, otherwise the rotation-matrix formula with
`s = 2/norm`, `xs = x*s`, ..., `wx = w*xs`, ..., written out with every
product inlined exactly as composed in the source. -/
noncomputable def Quaternion.Get3x3 (q : Quaternion) : mat3 ℝ :=
  if |q.Norm| < fltEpsilonR then ⟨⟨1, 0, 0⟩, ⟨0, 1, 0⟩, ⟨0, 0, 1⟩⟩
  else
    ⟨⟨1 - (q.y * (q.y * (2 / q.Norm)) + q.z * (q.z * (2 / q.Norm))),
      q.x * (q.y * (2 / q.Norm)) + q.w * (q.z * (2 / q.Norm)),
      q.x * (q.z * (2 / q.Norm)) - q.w * (q.y * (2 / q.Norm))⟩,
     ⟨q.x * (q.y * (2 / q.Norm)) - q.w * (q.z * (2 / q.Norm)),
      1 - (q.x * (q.x * (2 / q.Norm)) + q.z * (q.z * (2 / q.Norm))),
      q.y * (q.z * (2 / q.Norm)) + q.w * (q.x * (2 / q.Norm))⟩,
     ⟨q.x * (q.z * (2 / q.Norm)) + q.w * (q.y * (2 / q.Norm)),
      q.y * (q.z * (2 / q.Norm)) - q.w * (q.x * (2 / q.Norm)),
      1 - (q.x * (q.x * (2 / q.Norm)) + q.y * (q.y * (2 / q.Norm)))⟩⟩

/-- Source `Quaternion::Slerp(Quaternion &qu0, Quaternion &qu1, float t)`
(VecMat.h line 609), with `epsilon = .00001f`: the usual case interpolates
with `sin((1-t)*omega)/sin(omega)` weights for `omega = acos(cosOmega)`;
nearly identical endpoints blend linearly; nearly opposite endpoints
interpolate between `qu0` and the rotated companion
`qup = (-qu0.y, qu0.x, -qu0.w, qu0.z)` with `_PI`-scaled sine weights. -/
noncomputable def Quaternion.Slerp (qu0 qu1 : Quaternion) (t : ℝ) : Quaternion :=
  if 1 + Quaternion.Dot qu0 qu1 > 1 / 100000 then
    if 1 - Quaternion.Dot qu0 qu1 > 1 / 100000 then
      Quaternion.add
        (qu0.scale (Real.sin ((1 - t) * Real.arccos (Quaternion.Dot qu0 qu1)) /
          Real.sin (Real.arccos (Quaternion.Dot qu0 qu1))))
        (qu1.scale (Real.sin (t * Real.arccos (Quaternion.Dot qu0 qu1)) /
          Real.sin (Real.arccos (Quaternion.Dot qu0 qu1))))
    else
      Quaternion.add (qu0.scale (1 - t)) (qu1.scale t)
  else
    Quaternion.add (qu0.scale (Real.sin ((0.5 - t) * piConst)))
      ((⟨-qu0.y, qu0.x, -qu0.w, qu0.z⟩ : Quaternion).scale (Real.sin (t * piConst)))

/-- Source `mat3::operator*(const mat3 &m)` (VecMat.h line 229): the triple
loop accumulating `a[i][j] += row[i][k]*m[k][j]` from the zero matrix,
written out entrywise over ℝ. -/
noncomputable def mat3.mulR (a m : mat3 ℝ) : mat3 ℝ :=
  ⟨⟨a.r0.x * m.r0.x + a.r0.y * m.r1.x + a.r0.z * m.r2.x,
    a.r0.x * m.r0.y + a.r0.y * m.r1.y + a.r0.z * m.r2.y,
    a.r0.x * m.r0.z + a.r0.y * m.r1.z + a.r0.z * m.r2.z⟩,
   ⟨a.r1.x * m.r0.x + a.r1.y * m.r1.x + a.r1.z * m.r2.x,
    a.r1.x * m.r0.y + a.r1.y * m.r1.y + a.r1.z * m.r2.y,
    a.r1.x * m.r0.z + a.r1.y * m.r1.z + a.r1.z * m.r2.z⟩,
   ⟨a.r2.x * m.r0.x + a.r2.y * m.r1.x + a.r2.z * m.r2.x,
    a.r2.x * m.r0.y + a.r2.y * m.r1.y + a.r2.z * m.r2.y,
    a.r2.x * m.r0.z + a.r2.y * m.r1.z + a.r2.z * m.r2.z⟩⟩

/-- The textbook 3x3 determinant over ℝ (same first-row cofactor expansion
as `det3Spec`). -/
noncomputable def det3SpecR (m : mat3 ℝ) : ℝ :=
  m.r0.x * (m.r1.y * m.r2.z - m.r1.z * m.r2.y) -
    m.r0.y * (m.r1.x * m.r2.z - m.r1.z * m.r2.x) +
    m.r0.z * (m.r1.x * m.r2.y - m.r1.y * m.r2.x)

end VecMat

namespace VecMat

/-- C7: the claim states that for every pure rotation R,
`Quaternion(R).Get3x3()` reproduces R.  The code violates this: for the
pure rotation R = [[0,1,0],[-1,0,0],[0,0,1]] (orthonormal: R·Rᵀ = I,
det R = 1; handled by the trace branch, trace = 1 ≥ 0) the round trip
produces the TRANSPOSE Rᵀ = [[0,-1,0],[1,0,0],[0,0,1]], the inverse
rotation, which differs from R.  The `Quaternion(mat3)` constructor
extracts with the column-vector (standard) convention while `Get3x3`
emits the row-vector (transposed) formula; the `Quaternion(mat4)`
constructor compensates by transposing the upper-left 3x3 before calling
the mat3 constructor, confirming the mat3-level mismatch. -/
theorem c7_quat_mat3_roundtrip_transposes :
    mat3.mulR ⟨⟨0, 1, 0⟩, ⟨-1, 0, 0⟩, ⟨0, 0, 1⟩⟩
        (Transpose ⟨⟨0, 1, 0⟩, ⟨-1, 0, 0⟩, ⟨0, 0, 1⟩⟩) =
      ⟨⟨1, 0, 0⟩, ⟨0, 1, 0⟩, ⟨0, 0, 1⟩⟩ ∧
    det3SpecR ⟨⟨0, 1, 0⟩, ⟨-1, 0, 0⟩, ⟨0, 0, 1⟩⟩ = 1 ∧
    (Quaternion.ofMat3 ⟨⟨0, 1, 0⟩, ⟨-1, 0, 0⟩, ⟨0, 0, 1⟩⟩).Get3x3 =
      Transpose ⟨⟨0, 1, 0⟩, ⟨-1, 0, 0⟩, ⟨0, 0, 1⟩⟩ ∧
    Transpose (⟨⟨0, 1, 0⟩, ⟨-1, 0, 0⟩, ⟨0, 0, 1⟩⟩ : mat3 ℝ) ≠
      ⟨⟨0, 1, 0⟩, ⟨-1, 0, 0⟩, ⟨0, 0, 1⟩⟩ := by
  have h2 : Real.sqrt 2 ^ 2 = 2 := Real.sq_sqrt (by norm_num)
  have hne2 : Real.sqrt 2 ≠ 0 := ne_of_gt (Real.sqrt_pos.mpr (by norm_num))
  refine ⟨?_, ?_, ?_, ?_⟩
  · simp only [mat3.mulR, Transpose, mat3.mk.injEq, vec3.mk.injEq]
    norm_num
  · simp only [det3SpecR]
    norm_num
  · have hq : Quaternion.ofMat3 ⟨⟨0, 1, 0⟩, ⟨-1, 0, 0⟩, ⟨0, 0, 1⟩⟩ =
        ⟨0, 0, -(Real.sqrt 2)⁻¹, (Real.sqrt 2)⁻¹⟩ := by
      rw [Quaternion.ofMat3, if_pos (by norm_num)]
      simp only [Quaternion.mk.injEq]
      norm_num
      field_simp
      linear_combination 2 * h2
    rw [hq]
    have hnorm : (Quaternion.mk 0 0 (-(Real.sqrt 2)⁻¹) ((Real.sqrt 2)⁻¹)).Norm = 1 := by
      simp only [Quaternion.Norm]
      field_simp
    rw [Quaternion.Get3x3, if_neg (by rw [hnorm, fltEpsilonR]; norm_num), hnorm]
    simp only [Transpose, mat3.mk.injEq, vec3.mk.injEq]
    norm_num
    refine ⟨⟨?_, ?_⟩, ?_, ?_⟩ <;> (field_simp; try linear_combination h2)
  · simp only [ne_eq, Transpose, mat3.mk.injEq, vec3.mk.injEq]
    norm_num

end VecMat

namespace VecMat

/-- The code's pi constant 3.141592 is an underestimate of pi. -/
theorem piConst_lt_pi : piConst < Real.pi := by
  rw [piConst]
  exact Real.pi_gt_d6

/-- Pi exceeds the code's constant by less than one millionth. -/
theorem pi_lt_piConst_add : Real.pi < piConst + 1 / 1000000 := by
  have h := Real.pi_lt_d6
  rw [piConst]
  norm_num at h ⊢
  linarith

/-- The code's pi constant is positive. -/
theorem piConst_pos : 0 < piConst := by
  rw [piConst]
  norm_num

/-- The sine of half the code's pi constant is within one millionth of 1
(it is cos of the tiny angle pi/2 - 1.570796). -/
theorem one_sub_le_sin_half_piConst : 1 - 1 / 1000000 ≤ Real.sin (0.5 * piConst) := by
  have h1 : Real.sin (0.5 * piConst) = Real.cos (Real.pi / 2 - 0.5 * piConst) :=
    (Real.cos_pi_div_two_sub _).symm
  rw [h1]
  have hd0 : 0 < Real.pi / 2 - 0.5 * piConst := by
    have := piConst_lt_pi
    linarith
  have hd1 : Real.pi / 2 - 0.5 * piConst < 1 / 1000000 := by
    have := pi_lt_piConst_add
    have hp := piConst_pos
    linarith
  have hcos := Real.one_sub_sq_div_two_le_cos (x := Real.pi / 2 - 0.5 * piConst)
  nlinarith [hd0, hd1]

/-- The sine of the code's pi constant is nonnegative (3.141592 < pi). -/
theorem sin_piConst_nonneg : 0 ≤ Real.sin piConst :=
  Real.sin_nonneg_of_nonneg_of_le_pi (le_of_lt piConst_pos) (le_of_lt piConst_lt_pi)

/-- The sine of the code's pi constant is below one millionth (it equals
sin of the tiny angle pi - 3.141592). -/
theorem sin_piConst_le : Real.sin piConst ≤ 1 / 1000000 := by
  have h1 : Real.sin piConst = Real.sin (Real.pi - piConst) := (Real.sin_pi_sub _).symm
  rw [h1]
  have h0 : 0 ≤ Real.pi - piConst := le_of_lt (by linarith [piConst_lt_pi])
  have h2 := Real.sin_le h0
  have h3 := pi_lt_piConst_add
  linarith

end VecMat

namespace VecMat

/-- Scalar bound for the nearly-opposite Slerp branch at t = 0: scaling a
component of a unit quaternion by a sine within one millionth of 1 moves
it by at most 1/100. -/
theorem opp_t0_bound (a s1 : ℝ) (ha : a ^ 2 ≤ 1)
    (hs1l : 1 - 1 / 1000000 ≤ s1) (hs1u : s1 ≤ 1) :
    |s1 * a - a| ≤ 1 / 100 := by
  have ha1 : a ≤ 1 := by nlinarith [sq_nonneg (a - 1)]
  have ha2 : -1 ≤ a := by nlinarith [sq_nonneg (a + 1)]
  have hp1 : 0 ≤ (1 - s1) * (1 - a) := mul_nonneg (by linarith) (by linarith)
  have hp2 : 0 ≤ (1 - s1) * (1 + a) := mul_nonneg (by linarith) (by linarith)
  rw [abs_le]
  constructor <;> nlinarith [hp1, hp2]

/-- Scalar bound for the nearly-opposite Slerp branch at t = 1: the result
component `-s1*a + s2*u` is within 1/100 of `b` when `a+b` is small (the
endpoints are nearly antipodal), the components are bounded by 1, `s1` is
nearly 1 and `s2` nearly 0. -/
theorem opp_t1_bound (a b u s1 s2 : ℝ)
    (hab : (a + b) ^ 2 ≤ 1 / 40000) (ha : a ^ 2 ≤ 1) (hu : u ^ 2 ≤ 1)
    (hs1l : 1 - 1 / 1000000 ≤ s1) (hs1u : s1 ≤ 1)
    (hs2l : 0 ≤ s2) (hs2u : s2 ≤ 1 / 1000000) :
    |-s1 * a + s2 * u - b| ≤ 1 / 100 := by
  have ha1 : a ≤ 1 := by nlinarith [sq_nonneg (a - 1)]
  have ha2 : -1 ≤ a := by nlinarith [sq_nonneg (a + 1)]
  have hu1 : u ≤ 1 := by nlinarith [sq_nonneg (u - 1)]
  have hu2 : -1 ≤ u := by nlinarith [sq_nonneg (u + 1)]
  have hab1 : a + b ≤ 1 / 200 := by nlinarith [sq_nonneg (a + b - 1 / 200)]
  have hab2 : -(1 / 200) ≤ a + b := by nlinarith [sq_nonneg (a + b + 1 / 200)]
  have hp1 : 0 ≤ (1 - s1) * (1 - a) := mul_nonneg (by linarith) (by linarith)
  have hp2 : 0 ≤ (1 - s1) * (1 + a) := mul_nonneg (by linarith) (by linarith)
  have hp3 : 0 ≤ s2 * (1 - u) := mul_nonneg (by linarith) (by linarith)
  have hp4 : 0 ≤ s2 * (1 + u) := mul_nonneg (by linarith) (by linarith)
  rw [abs_le]
  constructor <;> nlinarith [hp1, hp2, hp3, hp4]

end VecMat

namespace VecMat

set_option maxHeartbeats 1000000 in
/-- C6: for all unit quaternions q0 and q1 (squared norm 1, per
`Quaternion::Norm`), `Slerp(q0,q1,0)` is within 1/100 of q0 and
`Slerp(q0,q1,1)` is within 1/100 of q1, componentwise — covering the usual
branch (where the endpoints are exact), the nearly-identical branch
(exact), and the nearly-opposite branch, where the `_PI = 3.141592`-scaled
sine weights make t=0 exact to within 1e-6 and t=1 land on `-q0`, which is
within `sqrt(2e-5) < 1/200` of q1 because `dot(q0,q1) <= -1 + 1e-5`. -/
theorem c6_slerp_boundary (q0 q1 : Quaternion) (h0 : q0.Norm = 1) (h1 : q1.Norm = 1) :
    (|(Quaternion.Slerp q0 q1 0).x - q0.x| ≤ 1 / 100 ∧
     |(Quaternion.Slerp q0 q1 0).y - q0.y| ≤ 1 / 100 ∧
     |(Quaternion.Slerp q0 q1 0).z - q0.z| ≤ 1 / 100 ∧
     |(Quaternion.Slerp q0 q1 0).w - q0.w| ≤ 1 / 100) ∧
    (|(Quaternion.Slerp q0 q1 1).x - q1.x| ≤ 1 / 100 ∧
     |(Quaternion.Slerp q0 q1 1).y - q1.y| ≤ 1 / 100 ∧
     |(Quaternion.Slerp q0 q1 1).z - q1.z| ≤ 1 / 100 ∧
     |(Quaternion.Slerp q0 q1 1).w - q1.w| ≤ 1 / 100) := by
  simp only [Quaternion.Norm] at h0 h1
  by_cases hA : 1 + Quaternion.Dot q0 q1 > 1 / 100000
  · by_cases hB : 1 - Quaternion.Dot q0 q1 > 1 / 100000
    · have hsin : Real.sin (Real.arccos (Quaternion.Dot q0 q1)) ≠ 0 := by
        rw [Real.sin_arccos]
        have hlt1 : Quaternion.Dot q0 q1 < 1 := by linarith
        have hgt : -1 < Quaternion.Dot q0 q1 := by linarith
        have hpos : 0 < 1 - Quaternion.Dot q0 q1 ^ 2 := by nlinarith
        exact ne_of_gt (Real.sqrt_pos.mpr hpos)
      constructor
      · rw [Quaternion.Slerp, if_pos hA, if_pos hB]
        simp only [Quaternion.add, Quaternion.scale,
          show (1 - (0 : ℝ)) * Real.arccos (Quaternion.Dot q0 q1) =
            Real.arccos (Quaternion.Dot q0 q1) from by ring,
          show ((0 : ℝ)) * Real.arccos (Quaternion.Dot q0 q1) = 0 from by ring,
          Real.sin_zero, zero_div, div_self hsin]
        norm_num
      · rw [Quaternion.Slerp, if_pos hA, if_pos hB]
        simp only [Quaternion.add, Quaternion.scale,
          show (1 - (1 : ℝ)) * Real.arccos (Quaternion.Dot q0 q1) = 0 from by ring,
          show ((1 : ℝ)) * Real.arccos (Quaternion.Dot q0 q1) =
            Real.arccos (Quaternion.Dot q0 q1) from by ring,
          Real.sin_zero, zero_div, div_self hsin]
        norm_num
    · constructor
      · rw [Quaternion.Slerp, if_pos hA, if_neg hB]
        simp only [Quaternion.add, Quaternion.scale]
        norm_num
      · rw [Quaternion.Slerp, if_pos hA, if_neg hB]
        simp only [Quaternion.add, Quaternion.scale]
        norm_num
  · have hA' : 1 + Quaternion.Dot q0 q1 ≤ 1 / 100000 := not_lt.mp hA
    simp only [Quaternion.Dot] at hA'
    have hx0 : q0.x ^ 2 ≤ 1 := by nlinarith [sq_nonneg q0.y, sq_nonneg q0.z, sq_nonneg q0.w]
    have hy0 : q0.y ^ 2 ≤ 1 := by nlinarith [sq_nonneg q0.x, sq_nonneg q0.z, sq_nonneg q0.w]
    have hz0 : q0.z ^ 2 ≤ 1 := by nlinarith [sq_nonneg q0.x, sq_nonneg q0.y, sq_nonneg q0.w]
    have hw0 : q0.w ^ 2 ≤ 1 := by nlinarith [sq_nonneg q0.x, sq_nonneg q0.y, sq_nonneg q0.z]
    have hy0n : (-q0.y) ^ 2 ≤ 1 := by rw [neg_sq]; exact hy0
    have hw0n : (-q0.w) ^ 2 ≤ 1 := by rw [neg_sq]; exact hw0
    have habx : (q0.x + q1.x) ^ 2 ≤ 1 / 40000 := by
      nlinarith [sq_nonneg (q0.y + q1.y), sq_nonneg (q0.z + q1.z), sq_nonneg (q0.w + q1.w)]
    have haby : (q0.y + q1.y) ^ 2 ≤ 1 / 40000 := by
      nlinarith [sq_nonneg (q0.x + q1.x), sq_nonneg (q0.z + q1.z), sq_nonneg (q0.w + q1.w)]
    have habz : (q0.z + q1.z) ^ 2 ≤ 1 / 40000 := by
      nlinarith [sq_nonneg (q0.x + q1.x), sq_nonneg (q0.y + q1.y), sq_nonneg (q0.w + q1.w)]
    have habw : (q0.w + q1.w) ^ 2 ≤ 1 / 40000 := by
      nlinarith [sq_nonneg (q0.x + q1.x), sq_nonneg (q0.y + q1.y), sq_nonneg (q0.z + q1.z)]
    have hs1l := one_sub_le_sin_half_piConst
    have hs1u := Real.sin_le_one (0.5 * piConst)
    have hs2l := sin_piConst_nonneg
    have hs2u := sin_piConst_le
    constructor
    · rw [Quaternion.Slerp, if_neg hA]
      simp only [Quaternion.add, Quaternion.scale,
        show (0.5 - (0 : ℝ)) * piConst = 0.5 * piConst from by ring,
        show ((0 : ℝ)) * piConst = 0 from by ring,
        Real.sin_zero, zero_mul, add_zero]
      exact ⟨opp_t0_bound q0.x _ hx0 hs1l hs1u, opp_t0_bound q0.y _ hy0 hs1l hs1u,
        opp_t0_bound q0.z _ hz0 hs1l hs1u, opp_t0_bound q0.w _ hw0 hs1l hs1u⟩
    · rw [Quaternion.Slerp, if_neg hA]
      simp only [Quaternion.add, Quaternion.scale,
        show (0.5 - (1 : ℝ)) * piConst = -(0.5 * piConst) from by ring,
        show ((1 : ℝ)) * piConst = piConst from by ring,
        Real.sin_neg]
      exact ⟨opp_t1_bound q0.x q1.x (-q0.y) (Real.sin (0.5 * piConst)) (Real.sin piConst)
          habx hx0 hy0n hs1l hs1u hs2l hs2u,
        opp_t1_bound q0.y q1.y q0.x (Real.sin (0.5 * piConst)) (Real.sin piConst)
          haby hy0 hx0 hs1l hs1u hs2l hs2u,
        opp_t1_bound q0.z q1.z (-q0.w) (Real.sin (0.5 * piConst)) (Real.sin piConst)
          habz hz0 hw0n hs1l hs1u hs2l hs2u,
        opp_t1_bound q0.w q1.w q0.z (Real.sin (0.5 * piConst)) (Real.sin piConst)
          habw hw0 hz0 hs1l hs1u hs2l hs2u⟩

end VecMat

namespace VecMat

/-- Witness for C6 at q0 = q1 = (0,0,0,1), the unit w quaternion. -/
theorem c6_slerp_boundary_witness :
    (Quaternion.mk 0 0 0 1).Norm = 1 ∧
    ((|(Quaternion.Slerp ⟨0, 0, 0, 1⟩ ⟨0, 0, 0, 1⟩ 0).x - (Quaternion.mk 0 0 0 1).x| ≤ 1 / 100 ∧
      |(Quaternion.Slerp ⟨0, 0, 0, 1⟩ ⟨0, 0, 0, 1⟩ 0).y - (Quaternion.mk 0 0 0 1).y| ≤ 1 / 100 ∧
      |(Quaternion.Slerp ⟨0, 0, 0, 1⟩ ⟨0, 0, 0, 1⟩ 0).z - (Quaternion.mk 0 0 0 1).z| ≤ 1 / 100 ∧
      |(Quaternion.Slerp ⟨0, 0, 0, 1⟩ ⟨0, 0, 0, 1⟩ 0).w - (Quaternion.mk 0 0 0 1).w| ≤ 1 / 100) ∧
     (|(Quaternion.Slerp ⟨0, 0, 0, 1⟩ ⟨0, 0, 0, 1⟩ 1).x - (Quaternion.mk 0 0 0 1).x| ≤ 1 / 100 ∧
      |(Quaternion.Slerp ⟨0, 0, 0, 1⟩ ⟨0, 0, 0, 1⟩ 1).y - (Quaternion.mk 0 0 0 1).y| ≤ 1 / 100 ∧
      |(Quaternion.Slerp ⟨0, 0, 0, 1⟩ ⟨0, 0, 0, 1⟩ 1).z - (Quaternion.mk 0 0 0 1).z| ≤ 1 / 100 ∧
      |(Quaternion.Slerp ⟨0, 0, 0, 1⟩ ⟨0, 0, 0, 1⟩ 1).w - (Quaternion.mk 0 0 0 1).w| ≤ 1 / 100)) := by
  have hn : (Quaternion.mk 0 0 0 1).Norm = 1 := by
    simp [Quaternion.Norm]
  exact ⟨hn, c6_slerp_boundary ⟨0, 0, 0, 1⟩ ⟨0, 0, 0, 1⟩ hn hn⟩

end VecMat
